import Mathlib

/-!
Verification of PyHPFEC's Galois-field and BCH/Golay cyclic-coding core

Shallow embedding of the repository's `pyhpfec` package:

* `src/pyhpfec/config.py` — `gf_multiply`, `gf_inverse`, `GFContext._build_tables`
* `src/pyhpfec/cyclic.py` — `_numba_cyclic_division`, `_numba_calculate_syndromes`,
  `BCHGolayCoder.encode`, `BCHGolayCoder._calculate_syndromes`,
  `BCHGolayCoder._decode_algebraic`, `BCHGolayCoder.decode`
* `src/pyhpfec/llr_utils.py` — `llr_to_hard_bits`, `log_map_approx`

Modelling conventions:

* numpy `uint8` arrays become `List Nat` whose stored values are reduced `% 256`
  at each assignment (classic numpy wrap-on-store semantics); array *indices* are
  plain Python ints and are not truncated.
* Codeword / data bits (numpy `uint8` values 0/1) are `Nat`, XOR is `Nat.xor`.
* `float64` LLR values are modelled as `ℚ`: the operations the code applies to
  them (comparison with 0, absolute value, two-valued minimum, multiplication by
  a sign in {-1, 0, 1}) are exact on floats, so the rational model is faithful.
* A Python `raise` becomes `Option` (`none` = the exception propagates).
-/

/-- Python slice `l[a:b]` (step 1) on a list: negative indices count from the
end, then both bounds are clamped into `[0, len]`. Used because
`_numba_cyclic_division` returns `working_frame[n - g_len + 1 : n]`. -/
def pySlice {α : Type} (l : List α) (a b : Int) : List α :=
  let n : Int := l.length
  let norm : Int → Nat := fun x =>
    if x < 0 then (max 0 (n + x)).toNat else (min x n).toNat
  (l.take (norm b)).drop (norm a)

/-- Embeds `working_frame[i : i + len(generator)] ^= generator` from
`_numba_cyclic_division` (cyclic.py line 39): elementwise XOR of the generator
into the window of the working frame starting at `i`. -/
def xorSegment (wf gen : List Nat) (i : Nat) : List Nat :=
  wf.take i ++ (List.zipWith (fun a b => a ^^^ b) ((wf.drop i).take gen.length) gen)
    ++ wf.drop (i + gen.length)

/-- The division loop of `_numba_cyclic_division` (cyclic.py lines 35-39):
`for i in range(k): if working_frame[i] == 1: working_frame[i:i+g_len] ^= generator`. -/
def cyclicDivLoop (gen : List Nat) (k : Nat) (wf0 : List Nat) : List Nat :=
  (List.range k).foldl (fun wf i => if wf.getD i 0 = 1 then xorSegment wf gen i else wf) wf0

/-- Embeds `_numba_cyclic_division(data, generator, k)` (cyclic.py lines 22-42).
`n = len(data)`; the working frame is `data ++ zeros(g_len - 1)`; after the
division loop the function returns the slice `working_frame[n - g_len + 1 : n]`.
Note that `n` is the length of the *actual argument* `data` (the k data bits
passed by `encode`), not the codeword length the inline comment asserts. -/
def numbaCyclicDivision (data gen : List Nat) (k : Nat) : List Nat :=
  let g_len := gen.length
  let n := data.length
  let wf := data ++ List.replicate (g_len - 1) 0
  let wf := cyclicDivLoop gen k wf
  pySlice wf ((n : Int) - g_len + 1) (n : Int)

/-- The hardcoded generator polynomial of `BCHGolayCoder.__init__`
(cyclic.py line 107): `np.array([1, 0, 1, 1, 0, 1, 1, 1], dtype=uint8)`. -/
def bchGenerator : List Nat := [1, 0, 1, 1, 0, 1, 1, 1]

/-- Embeds `BCHGolayCoder.encode` (cyclic.py lines 113-122): raises `ValueError`
(`none`) unless `data` has shape `(k,)`; otherwise returns
`data ++ _numba_cyclic_division(data, generator, k)`. -/
def coderEncode (k : Nat) (gen : List Nat) (data : List Nat) : Option (List Nat) :=
  if data.length = k then some (data ++ numbaCyclicDivision data gen k) else none

/-- Embeds `gf_multiply(a, b, log_table, anti_log_table, M)` (config.py lines 25-42):
returns 0 if either operand is 0, else
`anti_log_table[(log_table[a] + log_table[b]) % ((1 << M) - 1)]`.
Table reads are modelled with `getD _ 0`. -/
def gf_multiply (a b : Nat) (log_table anti_log_table : List Nat) (M : Nat) : Nat :=
  if a = 0 ∨ b = 0 then 0
  else
    let log_a := log_table.getD a 0
    let log_b := log_table.getD b 0
    let result_idx := (log_a + log_b) % ((1 <<< M) - 1)
    anti_log_table.getD result_idx 0

/-- Embeds `gf_inverse(a, inv_table)` (config.py lines 44-51). -/
def gf_inverse (a : Nat) (inv_table : List Nat) : Nat :=
  if a = 0 then 0 else inv_table.getD a 0

/-- The main table-generation loop of `GFContext._build_tables`
(config.py lines 108-126), one call per `i in range(Q-1)`:
check `alpha_i >= Q` (raise = `none`), store `anti_log_table[i] = alpha_i` and
`log_table[alpha_i] = i` (uint8 stores, value `% 256`; the index `alpha_i` is a
plain int), then `alpha_i <<= 1` and XOR with `P_poly` if bit `Q` is set.
`steps` counts the remaining iterations. -/
def tableLoop (Q P : Nat) : Nat → Nat → Nat → List Nat → List Nat →
    Option (List Nat × List Nat)
  | 0, _, _, al, lg => some (al, lg)
  | steps + 1, i, alpha, al, lg =>
    if Q ≤ alpha then none
    else
      let al' := al.set i (alpha % 256)
      let lg' := lg.set alpha (i % 256)
      let a1 := alpha <<< 1
      let a2 := if a1 &&& Q ≠ 0 then a1 ^^^ P else a1
      tableLoop Q P steps (i + 1) a2 al' lg'

/-- Embeds `GFContext._build_tables` up to (and including) the `log_table[0] = Q - 1`
sentinel store (config.py lines 98-129): both tables start as `zeros(Q)`
(uint8), the loop runs `Q - 1` times from `alpha_i = 1`, and on success the
sentinel `(Q-1) % 256` is stored at `log_table[0]`. -/
def buildLogAntilog (M P : Nat) : Option (List Nat × List Nat) :=
  let Q := 1 <<< M
  (tableLoop Q P (Q - 1) 0 1 (List.replicate Q 0) (List.replicate Q 0)).map
    (fun t => (t.1, t.2.set 0 ((Q - 1) % 256)))

/-- The inverse-table loop of `GFContext._build_tables` (config.py lines
133-135): starting from `zeros(Q)`, for `i in range(1, Q)` store
`inv_table[i] = anti_log_table[(Q - 1 - log_table[i]) % (Q - 1)]`. -/
def invLoop (Q : Nat) (al lg : List Nat) : Nat → Nat → List Nat → List Nat
  | _, 0, inv => inv
  | i, steps + 1, inv =>
    let inv_power := (Q - 1 - lg.getD i 0) % (Q - 1)
    invLoop Q al lg (i + 1) steps (inv.set i (al.getD inv_power 0 % 256))

/-- The whole of `GFContext._build_tables` (config.py lines 94-135): the
log/antilog generation loop with the `log_table[0]` sentinel, then the inverse
table. `none` models the `RuntimeError` raised inside the loop. -/
def buildTables (M P : Nat) : Option (List Nat × List Nat × List Nat) :=
  let Q := 1 <<< M
  (buildLogAntilog M P).map
    (fun t => (t.1, t.2, invLoop Q t.1 t.2 1 (Q - 1) (List.replicate Q 0)))

/-- Embeds `GFContext.__init__` (config.py lines 63-92): rejects `M` outside `[2, 16]`
(`ValueError`), looks up a built-in polynomial when none is supplied
(`NotImplementedError` if absent for that `M`), then runs `_build_tables`. -/
def gfContextInit (M : Nat) (P_poly : Option Nat) : Option (List Nat × List Nat × List Nat) :=
  if 2 ≤ M ∧ M ≤ 16 then
    match P_poly with
    | some P => buildTables M P
    | none =>
      if M = 4 then buildTables M 19
      else if M = 6 then buildTables M 67
      else if M = 8 then buildTables M 285
      else none
  else none

/-- The tables of `GFContext(M=4)` (primitive polynomial `0b10011` = 19), the
context used by every BCH(15,7,t=2) test: `(anti_log, log, inv)`. -/
def gf16Tables : List Nat × List Nat × List Nat :=
  (buildTables 4 19).getD ([], [], [])

/-- The inner `j in range(n)` loop of `_numba_calculate_syndromes`
(cyclic.py lines 59-67) as a fold over the codeword bits: the state is
`(syndrome_value, current_power)`; a 1-bit XORs the current power into the
value, and the power is advanced by `gf_multiply(current_power, alpha_i,
inv_table, inv_table, M)` — the kernel passes the *inverse* table in both the
log and antilog slots, verbatim from the source's placeholder call. -/
def synForWord (cw : List Nat) (alpha_i : Nat) (inv_table : List Nat) (M : Nat) : Nat :=
  (cw.foldl
    (fun (st : Nat × Nat) bit =>
      (if bit = 1 then st.1 ^^^ st.2 else st.1,
       gf_multiply st.2 alpha_i inv_table inv_table M))
    (0, 1)).1

/-- Embeds `_numba_calculate_syndromes(codeword, powers, inv_table, M, Q, t, n)`
(cyclic.py lines 44-71): for `i in 1..2t`, `alpha_i = powers[i]` and the inner
loop accumulates `S_i`; the kernel returns `syndromes[1:]`, i.e. `S_1..S_2t`. -/
def numbaCalculateSyndromes (cw : List Nat) (powers inv_table : List Nat)
    (M t : Nat) : List Nat :=
  (List.range' 1 (2 * t)).map (fun i => synForWord cw (powers.getD i 0) inv_table M)

/-- Embeds `BCHGolayCoder._calculate_syndromes` (cyclic.py lines 124-138): the method
never calls the numba kernel — it returns the dummy `np.zeros(2 * t)`. -/
def coderCalculateSyndromes (t : Nat) (_cw : List Nat) : List Nat :=
  List.replicate (2 * t) 0

/-- Embeds `BCHGolayCoder._decode_algebraic` (cyclic.py lines 140-165): computes the
(dummy) syndromes, then — Berlekamp-Massey, Chien search and the correction
loop all being commented-out placeholders — copies the input, corrects nothing,
and returns `(hard_codeword[:k], 0)`. -/
def decodeAlgebraic (k t : Nat) (hard_codeword : List Nat) : List Nat × Nat :=
  let _syndromes := coderCalculateSyndromes t hard_codeword
  let corrected_codeword := hard_codeword
  let errors_corrected := 0
  (corrected_codeword.take k, errors_corrected)

/-- Embeds `llr_to_hard_bits(llrs)` (llr_utils.py lines 20-34): elementwise,
bit = 1 if the LLR is `< 0`, else 0. -/
def llr_to_hard_bits (llrs : List ℚ) : List Nat :=
  llrs.map (fun x => if x < 0 then 1 else 0)

/-- Embeds `np.sign` on a scalar: 1, -1 or 0. -/
def npSign (x : ℚ) : ℚ :=
  if 0 < x then 1 else if x < 0 then -1 else 0

/-- Embeds `log_map_approx(L_a, L_b)` (llr_utils.py lines 36-56): the dead
`abs_sum`/`abs_diff` locals, then
`L_out = np.sign(L_a) * np.sign(L_b) * np.min(np.abs(L_a), np.abs(L_b))`,
with the two-argument `np.min` taken as the binary minimum the surrounding
comments describe (min-sum). -/
def log_map_approx (L_a L_b : ℚ) : ℚ :=
  let _abs_sum := |L_a + L_b|
  let _abs_diff := |L_a - L_b|
  let L_out := npSign L_a * npSign L_b * min |L_a| |L_b|
  L_out

/-- Embeds `np.argsort` over the reliability vector (cyclic.py line 190): the list of
indices ordered by ascending value (insertion sort on `(index, value)` pairs).
Dead code in the Chase stub — `least_reliable_indices` is never read. -/
def argsortInsert (p : Nat × ℚ) : List (Nat × ℚ) → List (Nat × ℚ)
  | [] => [p]
  | q :: rest => if p.2 < q.2 then p :: q :: rest else q :: argsortInsert p rest

/-- See `argsortInsert`. -/
def argsort (l : List ℚ) : List Nat :=
  (l.enum.foldr argsortInsert []).map (fun p => p.1)

/-- The Chase branch of `BCHGolayCoder.decode` (cyclic.py lines 179-212,
`soft_decision=True, is_llr=True`): hard-decides the LLRs, computes the
reliability vector, `num_L`, the least-reliable indices and the initial metric
`sum(reliability * (1 - 2b)^2)`, but the `2^L` test-pattern loop is a
commented-out placeholder — so `best_codeword` stays the baseline hard decision
and the method returns `(best_codeword[:k], 0)` unconditionally. -/
def chaseDecode (k n num_test_patterns : Nat) (input_data : List ℚ) : List Nat × Nat :=
  let hard_codeword := llr_to_hard_bits input_data
  let reliability := input_data.map (fun x => |x|)
  let num_L := min num_test_patterns n
  let _least_reliable_indices := (argsort reliability).take num_L
  let best_codeword := hard_codeword
  let _min_metric :=
    (List.zipWith (fun r b => r * (1 - 2 * (b : ℚ)) * (1 - 2 * (b : ℚ)))
      reliability hard_codeword).sum
  let decoded_data := best_codeword.take k
  (decoded_data, 0)

/-- The hard-decision branch of `BCHGolayCoder.decode` (cyclic.py lines
214-221) with `is_llr=False`: `astype(np.uint8)` (values already bits, stored
`% 256`) then `_decode_algebraic`. -/
def coderDecodeHard (k t : Nat) (input_data : List Nat) : List Nat × Nat :=
  let hard_codeword := input_data.map (· % 256)
  decodeAlgebraic k t hard_codeword

/-- The `BCHGolayCoder(n=15, k=7, t=2, GFContext(M=4))` of the repository's
tests: its hard decode path. -/
def bchDecodeHard (input_data : List Nat) : List Nat × Nat :=
  coderDecodeHard 7 2 input_data

/-- The same coder's encode path. -/
def bchEncode (data : List Nat) : Option (List Nat) :=
  coderEncode 7 bchGenerator data

/-- The uint8-truncation probe for `GFContext(M=9, P_poly=529)`
(`529 = 0b1000010001`, the primitive `x^9 + x^4 + 1`): the pair
`(anti_log_table[8], log_table[anti_log_table[8]])` of the built tables,
`(999, 999)` if construction failed. -/
def gf512Probe : Nat × Nat :=
  match buildLogAntilog 9 529 with
  | some t => let x := t.1.getD 8 999; (x, t.2.getD x 999)
  | none => (999, 999)

/-- C1: the claim states that `encode(data)` returns an n-bit codeword
`data ++ parity` where the parity is the trailing `n-k` bits of the working
frame after XOR polynomial division. On the code this fails: because `encode`
passes the raw k-bit data, the kernel's slice `working_frame[n-g_len+1 : n]`
(with `n = len(data) = k`) lands entirely inside the data half of the frame,
which the division loop has already zeroed. For data `[1,0,0,0,0,0,0]` the
returned parity is all-zero while the frame's actual trailing `g_len - 1` bits
(the remainder the kernel's own docstring promises) are `[0,0,0,1,1,0,1]`; the
codeword also has 14 bits, not `n = 15`. -/
theorem c1_encode_parity_not_trailing_bits :
    bchEncode [1, 0, 0, 0, 0, 0, 0] = some ([1, 0, 0, 0, 0, 0, 0] ++ List.replicate 7 0)
    ∧ (cyclicDivLoop bchGenerator 7 ([1, 0, 0, 0, 0, 0, 0] ++ List.replicate 7 0)).drop 7
        = [0, 0, 0, 1, 1, 0, 1]
    ∧ List.replicate 7 (0 : Nat) ≠ [0, 0, 0, 1, 1, 0, 1]
    ∧ ([1, 0, 0, 0, 0, 0, 0] ++ List.replicate 7 (0 : Nat)).length = 14 := by
  refine ⟨by decide, by decide, by decide, by decide⟩

set_option maxRecDepth 10000 in
/-- C2: the claim states that for every `M` in `[2,16]` with a valid primitive
polynomial the built tables satisfy `log[antilog[i]] = i`, and `antilog` visits
all `Q-1` nonzero elements. On the code this fails for `M ≥ 9`: the tables are
`uint8`, so for `GFContext(M=9, P=529)` (`x^9+x^4+1`, primitive) the element
`α^8 = 256` is stored as `0` in `anti_log_table[8]`, and
`log[antilog[8]] = log[0] = 255` (the truncated sentinel) instead of `8`. -/
theorem c2_gf512_tables_truncated : gf512Probe = (0, 255) ∧ (255 : Nat) ≠ 8 := by
  exact ⟨by decide, by decide⟩

/-- C3: the claim states that the syndromes of the weight-1 word with its 1 at
position 0 are `S_i = 1` for all `i` (for BCH(15,7,t=2): `[1,1,1,1]`). The
coder's `_calculate_syndromes` method returns the dummy `np.zeros(2t)` —
`[0,0,0,0]` — contradicting the repository's own unit test
`test_syndrome_single_error`; the unused numba kernel does produce
`[1,1,1,1]` on the same word. -/
theorem c3_syndromes_dummy_zero :
    coderCalculateSyndromes 2 (1 :: List.replicate 14 0) = [0, 0, 0, 0]
    ∧ numbaCalculateSyndromes (1 :: List.replicate 14 0) gf16Tables.1 gf16Tables.2.2 4 2
        = [1, 1, 1, 1]
    ∧ ([0, 0, 0, 0] : List Nat) ≠ [1, 1, 1, 1] := by
  refine ⟨by decide, by decide, by decide⟩

/-- C4: the claim states that flipping exactly `t` bits of a valid codeword and
hard-decoding recovers the original data with `corrected_count = t`. The
decoder's Berlekamp-Massey/Chien/correction stages are commented-out
placeholders, so for the all-zero codeword with bits 0 and 1 flipped the
decoder returns the corrupted data `[1,1,0,0,0,0,0]` with count 0 instead of
the all-zero data with count 2 — contradicting the repository's own
integration test `test_bch_hard_decoding_t_errors`. -/
theorem c4_two_errors_uncorrected :
    bchEncode (List.replicate 7 0) = some (List.replicate 14 0)
    ∧ bchDecodeHard (1 :: 1 :: List.replicate 12 0) = ([1, 1, 0, 0, 0, 0, 0], 0)
    ∧ ([1, 1, 0, 0, 0, 0, 0] : List Nat) ≠ List.replicate 7 0
    ∧ (0 : Nat) ≠ 2 := by
  refine ⟨by decide, by decide, by decide, by decide⟩

/-- C5: for every k-bit data vector, hard-decision decoding of `encode(data)`
returns exactly `(data, 0)`: encoding is systematic (the first k codeword bits
are the data), and the hard decoder extracts the first k bits and reports 0
corrections, so the round trip holds. -/
theorem c5_encode_decode_roundtrip (d : List Nat) (h : d.length = 7)
    (hb : ∀ x ∈ d, x ≤ 1) :
    (bchEncode d).map bchDecodeHard = some (d, 0) := by
  have henc : bchEncode d = some (d ++ numbaCyclicDivision d bchGenerator 7) := by
    simp [bchEncode, coderEncode, h]
  have hmap : d.map (· % 256) = d := by
    have : ∀ x ∈ d, x % 256 = x := fun x hx =>
      Nat.mod_eq_of_lt (lt_of_le_of_lt (hb x hx) (by norm_num))
    simpa using List.map_congr_left this
  rw [henc]
  simp [bchDecodeHard, coderDecodeHard, decodeAlgebraic, List.map_append, hmap]
  rw [List.take_append_of_le_length] <;> simp [h]

/-- Witness for C5 at the concrete data vector `[1,0,1,1,0,0,1]`. -/
theorem c5_encode_decode_roundtrip_witness :
    (bchEncode [1, 0, 1, 1, 0, 0, 1]).map bchDecodeHard = some ([1, 0, 1, 1, 0, 0, 1], 0) :=
  c5_encode_decode_roundtrip [1, 0, 1, 1, 0, 0, 1] (by decide) (by decide)

/-- C6 counterexample: the claim states that Field Context construction fails
whenever the supplied polynomial is not primitive, in particular when the
generation loop yields fewer than `Q-1` distinct nonzero elements before
cycling. For `M = 4` with `P = 17` (`x^4 + 1`, not primitive) construction
succeeds: the antilog table cycles through only 4 distinct nonzero values
(`1, 2, 4, 8`) yet a context is returned. -/
theorem c6_nonprimitive_poly_accepted :
    (buildTables 4 17).isSome = true
    ∧ ((buildTables 4 17).getD ([], [], [])).1
        = [1, 2, 4, 8, 1, 2, 4, 8, 1, 2, 4, 8, 1, 2, 4, 0]
    ∧ (((buildTables 4 17).getD ([], [], [])).1.filter (· ≠ 0)).dedup.length = 4
    ∧ (4 : Nat) < 15 := by
  refine ⟨by decide, by decide, by decide, by decide⟩

/-- C6 amended: construction only fails through the `alpha_i >= Q` check
(which a polynomial of degree M never triggers); an early-cycling
non-primitive polynomial of degree M is not detected. Concretely, for `M = 4`
every polynomial `P` with `16 ≤ P < 32` (bit 4 set, i.e. degree 4) builds a
context successfully, primitive or not. -/
theorem c6_degree_M_poly_always_builds :
    ∀ P : Nat, P < 32 → 16 ≤ P → (buildTables 4 P).isSome = true := by
  decide

/-- Witness for the amended C6 theorem at the non-primitive `P = 17`. -/
theorem c6_degree_M_poly_always_builds_witness : (buildTables 4 17).isSome = true :=
  c6_degree_M_poly_always_builds 17 (by decide) (by decide)

/-- C7: the claim states that failed Chase candidates are excluded from the
candidate pool and that the call fails with `UncorrectableError` when every
candidate fails. The `2^L` test-pattern loop is a commented-out placeholder:
for every LLR input and every `num_test_patterns`, the soft-decision branch
returns the first k bits of the baseline hard decision with count 0 — it
evaluates no candidates and has no failure path at all. -/
theorem c7_chase_always_returns_baseline (llrs : List ℚ) (ntp : Nat) :
    chaseDecode 7 15 ntp llrs = ((llr_to_hard_bits llrs).take 7, 0) := rfl

/-- C8: for all (finite) LLR inputs, `log_map_approx` returns
`sign(L_a) * sign(L_b) * min(|L_a|, |L_b|)` — zero when either input is zero,
`min(|L_a|,|L_b|)` when the signs agree, and `-min(|L_a|,|L_b|)` when they
differ: the min-sum approximation. -/
theorem c8_log_map_approx_min_sum (a b : ℚ) :
    log_map_approx a b =
      if a = 0 ∨ b = 0 then 0
      else if (0 < a ∧ 0 < b) ∨ (a < 0 ∧ b < 0) then min |a| |b|
      else -min |a| |b| := by
  unfold log_map_approx npSign
  by_cases ha0 : a = 0
  · simp [ha0]
  by_cases hb0 : b = 0
  · simp [hb0]
  by_cases hap : 0 < a <;> by_cases hbp : 0 < b
  · simp [ha0, hb0, hap, hbp, lt_asymm hap, lt_asymm hbp]
  · have hbn : b < 0 := lt_of_le_of_ne (not_lt.1 hbp) hb0
    simp [ha0, hb0, hap, hbp, hbn, lt_asymm hap]
  · have han : a < 0 := lt_of_le_of_ne (not_lt.1 hap) ha0
    simp [ha0, hb0, hap, hbp, han, lt_asymm hbp]
  · have han : a < 0 := lt_of_le_of_ne (not_lt.1 hap) ha0
    have hbn : b < 0 := lt_of_le_of_ne (not_lt.1 hbp) hb0
    simp [ha0, hb0, hap, hbp, han, hbn]

/-- C9: the hard-decision utility maps the spec's literal boundary input
`[1.5, -2.0, 0.001, -0.001, 5.0, -5.0]` to `[0,1,0,1,0,1]`, is total with
every output in `{0, 1}`, and resolves the tie at `llr = 0` to bit 0. -/
theorem c9_llr_hard_decision_spec :
    llr_to_hard_bits [3/2, -2, 1/1000, -1/1000, 5, -5] = [0, 1, 0, 1, 0, 1]
    ∧ (∀ llrs : List ℚ, (llr_to_hard_bits llrs).all (fun b => b ≤ 1) = true)
    ∧ llr_to_hard_bits [0] = [0] := by
  refine ⟨by norm_num [llr_to_hard_bits], ?_, by norm_num [llr_to_hard_bits]⟩
  intro llrs
  rw [List.all_eq_true]
  intro x hx
  rcases List.mem_map.1 hx with ⟨v, -, rfl⟩
  by_cases hv : v < 0 <;> simp [hv]

/-- C10: Galois-field multiplication is commutative — for every pair of
elements and any fixed log/antilog tables, `gf_multiply(a, b) = gf_multiply(b, a)`,
since the exponent sum `log[a] + log[b]` and the zero test are symmetric. -/
theorem c10_gf_multiply_comm (a b : Nat) (lt alt : List Nat) (M : Nat) :
    gf_multiply a b lt alt M = gf_multiply b a lt alt M := by
  unfold gf_multiply
  by_cases ha : a = 0 <;> by_cases hb : b = 0 <;> simp [ha, hb, Nat.add_comm]
